import Mathlib

/-!
Verification of the Terminal Task Manager core (src/app.py) against its
natural-language specification.

The Python source is shallowly embedded: the interactive prompts become
explicit string parameters, the mutable `TodoApp` object becomes an explicit
`AppState` record threaded through the operations, and the JSON data file
becomes an inductive `DataFile` value.  Python string helpers (`str.strip`,
`str.split`, `int(...)`, `str.lower`, negative list indexing) are embedded as
structurally recursive Lean functions so that every definition evaluates by
kernel reduction.
-/

namespace TodoApp

/-! ### Python string primitives -/

/-- Embeds Python `str.strip()`: drop whitespace from both ends. -/
def pyStrip (s : String) : String :=
  ⟨((s.data.dropWhile Char.isWhitespace).reverse.dropWhile Char.isWhitespace).reverse⟩

/-- Embeds Python `str.lower()` (ASCII case folding suffices here). -/
def pyLower (s : String) : String :=
  ⟨s.data.map Char.toLower⟩

/-- Helper for `pyToInt?`: accumulate decimal digits. -/
def digitsToNat : List Char → Nat → Nat
  | [], acc => acc
  | c :: cs, acc => digitsToNat cs (acc * 10 + (c.toNat - 48))

/-- Embeds Python `int(s)`: strip whitespace, optional sign, then all
decimal digits; raises (here: `none`) otherwise. -/
def pyToInt? (s : String) : Option Int :=
  match (pyStrip s).data with
  | [] => none
  | '-' :: ds =>
      if ds ≠ [] ∧ ds.all Char.isDigit then some (-(digitsToNat ds 0 : Int)) else none
  | '+' :: ds =>
      if ds ≠ [] ∧ ds.all Char.isDigit then some (digitsToNat ds 0) else none
  | ds =>
      if ds.all Char.isDigit then some (digitsToNat ds 0) else none

/-- Embeds Python list indexing `xs[i]`, including negative indices counting
from the end; `none` models `IndexError`. -/
def pyIndex (xs : List α) (i : Int) : Option α :=
  if 0 ≤ i then xs[i.toNat]?
  else if 0 ≤ (xs.length : Int) + i then xs[((xs.length : Int) + i).toNat]? else none

/-- Helper for `pySplitComma`: split a character list at commas. -/
def splitCommaAux : List Char → List Char → List (List Char)
  | [], acc => [acc.reverse]
  | c :: cs, acc =>
      if c = ',' then acc.reverse :: splitCommaAux cs [] else splitCommaAux cs (c :: acc)

/-- Embeds Python `s.split(',')` (note: `"".split(',') == [""]`). -/
def pySplitComma (s : String) : List String :=
  (splitCommaAux s.data []).map (fun l => ⟨l⟩)

/-- Embeds Python `int(q)` on a rational (truncation toward zero; only used
on nonnegative values here, where truncation and floor agree). -/
def pyInt (q : ℚ) : Int := Int.tdiv q.num q.den

/-! ### Enumerations (src/app.py lines 16-26) -/

/-- `class Priority(Enum)`, lines 16-20. -/
inductive Priority
  | low
  | medium
  | high
  | urgent
  deriving DecidableEq, BEq, Repr

/-- The Russian label of each `Priority` member (its `.value`). -/
def Priority.value : Priority → String
  | .low => "Низкий"
  | .medium => "Средний"
  | .high => "Высокий"
  | .urgent => "Срочный"

/-- Embeds `Priority(label)`: look the stored label up in the closed
enumeration; `none` models the `ValueError` raised on an unknown label. -/
def Priority.ofValue? (s : String) : Option Priority :=
  if s = "Низкий" then some .low
  else if s = "Средний" then some .medium
  else if s = "Высокий" then some .high
  else if s = "Срочный" then some .urgent
  else none

/-- `class Status(Enum)`, lines 22-26. -/
inductive Status
  | todo
  | inProgress
  | done
  | cancelled
  deriving DecidableEq, BEq, Repr

/-- The Russian label of each `Status` member (its `.value`). -/
def Status.value : Status → String
  | .todo => "К выполнению"
  | .inProgress => "В процессе"
  | .done => "Выполнено"
  | .cancelled => "Отменено"

/-- Embeds `Status(label)`; `none` models the `ValueError` on an unknown
label. -/
def Status.ofValue? (s : String) : Option Status :=
  if s = "К выполнению" then some .todo
  else if s = "В процессе" then some .inProgress
  else if s = "Выполнено" then some .done
  else if s = "Отменено" then some .cancelled
  else none

/-- `list(Priority)`: members in declaration order (line 163). -/
def priorityList : List Priority := [.low, .medium, .high, .urgent]

/-- `list(Status)`: members in declaration order (line 261). -/
def statusList : List Status := [.todo, .inProgress, .done, .cancelled]

/-! ### Task entity (src/app.py lines 28-53) -/

/-- The `Task` dataclass, lines 28-41 (after `__post_init__`, `tags` is
always a list, so it is total here). -/
structure Task where
  id : Nat
  title : String
  description : String
  priority : Priority
  status : Status
  created_at : String
  due_date : Option String
  tags : List String
  deriving DecidableEq, Repr

/-- One JSON record of the data file: the dictionary produced by
`Task.to_dict` / consumed by `load_tasks`.  `priority` and `status` hold the
stored label text; `due_date` is `None`-able and `tags` defaulted, matching
`task_data.get('due_date')` and `task_data.get('tags', [])`. -/
structure RawTask where
  id : Nat
  title : String
  description : String
  priority : String
  status : String
  created_at : String
  due_date : Option String
  tags : List String
  deriving DecidableEq, Repr

/-- `Task.to_dict`, lines 43-53. -/
def Task.to_dict (t : Task) : RawTask :=
  { id := t.id
    title := t.title
    description := t.description
    priority := t.priority.value
    status := t.status.value
    created_at := t.created_at
    due_date := t.due_date
    tags := t.tags }

/-- The on-disk data file: either text that `json.load` rejects, or a JSON
array of task records. -/
inductive DataFile
  | malformed
  | records (rs : List RawTask)

/-! ### App state and persistence (src/app.py lines 55-108) -/

/-- The mutable fields of `TodoApp` that the core operations touch:
`self.tasks` and `self.current_id`. -/
structure AppState where
  tasks : List Task
  current_id : Nat
  deriving DecidableEq, Repr

/-- `__init__` before `load_tasks` runs: `tasks = []`, `current_id = 1`
(lines 58-59). -/
def initState : AppState := { tasks := [], current_id := 1 }

/-- Reconstruction of one `Task` from a record (lines 85-94); `none` models
the exception raised by `Priority(...)`/`Status(...)` on an unknown label. -/
def decodeTask (r : RawTask) : Option Task :=
  (Priority.ofValue? r.priority).bind fun p =>
    (Status.ofValue? r.status).bind fun s =>
      some
        { id := r.id
          title := r.title
          description := r.description
          priority := p
          status := s
          created_at := r.created_at
          due_date := r.due_date
          tags := r.tags }

/-- The record loop of `load_tasks` (lines 84-97).  Each decoded task is
appended and `current_id` bumped before the next record is examined; the
first decode failure raises, so the loop stops there and the partially
filled state survives (the exception is caught at line 98).  The Bool
reports whether the loop ran to completion. -/
def loadLoop : List RawTask → AppState → AppState × Bool
  | [], st => (st, true)
  | r :: rs, st =>
      match decodeTask r with
      | none => (st, false)
      | some t =>
          loadLoop rs
            { tasks := st.tasks ++ [t]
              current_id := if st.current_id ≤ t.id then t.id + 1 else st.current_id }

/-- `load_tasks`, lines 78-99.  `none` models a missing file; `malformed`
models text `json.load` rejects.  Every failure is caught by the
`except` at line 98, so the function is total. -/
def load_tasks (f : Option DataFile) (st : AppState) : AppState :=
  match f with
  | none => st
  | some .malformed => st
  | some (.records rs) => (loadLoop rs st).1

/-- `save_tasks`, lines 101-108: serialize the collection in order. -/
def save_tasks (tasks : List Task) : DataFile :=
  .records (tasks.map Task.to_dict)

/-- The tasks a failed-or-successful load leaves behind: the decoded
records up to (not including) the first decode failure. -/
def decodeRun : List RawTask → List Task
  | [] => []
  | r :: rs =>
      match decodeTask r with
      | none => []
      | some t => t :: decodeRun rs

/-! ### add_task (src/app.py lines 144-187) -/

/-- The raw console answers consumed by one `add_task` call, plus the
`datetime.now()` stamp, which the embedding receives as data. -/
structure AddInput where
  title : String
  description : String
  priorityChoice : String
  due_date : String
  tags_input : String
  now : String
  deriving DecidableEq, Repr

/-- Priority selection of `add_task` (lines 161-165): `int` conversion and
list indexing under a bare `except` that falls back to `MEDIUM`. -/
def prioritySel (s : String) : Priority :=
  ((pyToInt? s).bind fun n => pyIndex priorityList (n - 1)).getD Priority.medium

/-- Tag parsing of `add_task` (lines 169-170): split the stripped input at
commas, strip each piece, drop empties. -/
def pyTagSplit (s : String) : List String :=
  ((pySplitComma (pyStrip s)).map pyStrip).filter (fun t => t != "")

/-- `add_task`, lines 144-187.  An empty stripped title aborts with no
mutation (the `ValidationError` of the spec); otherwise the new task takes
`id = current_id`, status `TODO`, and is appended, and `current_id` is
incremented.  Returns the updated state and the created task, if any. -/
def add_task (inp : AddInput) (st : AppState) : AppState × Option Task :=
  if pyStrip inp.title = "" then (st, none)
  else
    let dd := pyStrip inp.due_date
    let task : Task :=
      { id := st.current_id
        title := pyStrip inp.title
        description := pyStrip inp.description
        priority := prioritySel inp.priorityChoice
        status := Status.todo
        created_at := inp.now
        due_date := if dd = "" then none else some dd
        tags := pyTagSplit inp.tags_input }
    ({ tasks := st.tasks ++ [task], current_id := st.current_id + 1 }, some task)

/-! ### Lookup, edit, delete (src/app.py lines 225-294) -/

/-- `next((t for t in self.tasks if t.id == task_id), None)` — the lookup
used by edit/delete/complete (lines 235, 282, 409). -/
def find_task (task_id : Nat) (st : AppState) : Option Task :=
  st.tasks.find? (fun t => t.id == task_id)

/-- Replace the first list element satisfying `p` by its image under `f`
(in-place mutation of the object `next(...)` returned). -/
def modifyFirst (p : Task → Bool) (f : Task → Task) : List Task → List Task
  | [] => []
  | t :: ts => if p t then f t :: ts else t :: modifyFirst p f ts

/-- Remove the first list element satisfying `p` (`self.tasks.remove(task)`,
line 287, where `task` is the first id match). -/
def eraseFirstP (p : Task → Bool) : List Task → List Task
  | [] => []
  | t :: ts => if p t then ts else t :: eraseFirstP p ts

/-- Status selection of `edit_task` (lines 258-263): an empty stripped input
skips the update; otherwise `int` conversion and `list(Status)` indexing run
under a bare `except: pass`, so `none` means "keep the current status". -/
def statusSel (sIn : String) : Option Status :=
  if pyStrip sIn = "" then none
  else
    match pyToInt? (pyStrip sIn) with
    | none => none
    | some n => pyIndex statusList (n - 1)

/-- Title step of `edit_task` (lines 245-247). -/
def applyTitle (tIn : String) (t : Task) : Task :=
  if pyStrip tIn = "" then t else { t with title := pyStrip tIn }

/-- Description step of `edit_task` (lines 249-251). -/
def applyDesc (dIn : String) (t : Task) : Task :=
  if pyStrip dIn = "" then t else { t with description := pyStrip dIn }

/-- Status step of `edit_task` (lines 258-263). -/
def applyStatus (sIn : String) (t : Task) : Task :=
  match statusSel sIn with
  | none => t
  | some s => { t with status := s }

/-- The in-place mutation one `edit_task` call performs on the found task:
title, then description, then status (lines 245-263). -/
def applyEdit (tIn dIn sIn : String) (t : Task) : Task :=
  applyStatus sIn (applyDesc dIn (applyTitle tIn t))

/-- `edit_task`, lines 225-270, for a numeric id answer: look the task up;
if absent, report and change nothing; otherwise mutate the found task with
the three field answers. -/
def edit_task (task_id : Nat) (tIn dIn sIn : String) (st : AppState) : AppState :=
  match find_task task_id st with
  | none => st
  | some _ =>
      { st with tasks := modifyFirst (fun t => t.id == task_id) (applyEdit tIn dIn sIn) st.tasks }

/-- `delete_task`, lines 272-294, for a numeric id answer: if the task is
found and the confirmation answer lowercases to `"y"`, remove it; every
other path leaves the state unchanged. -/
def delete_task (task_id : Nat) (confirm : String) (st : AppState) : AppState :=
  match find_task task_id st with
  | none => st
  | some _ =>
      if pyLower confirm = "y" then
        { st with tasks := eraseFirstP (fun t => t.id == task_id) st.tasks }
      else st

/-! ### Operation sequences (for the id-allocation claims) -/

/-- One user action touching the collection: an `add_task` with its console
answers, or a `delete_task` with its id and confirmation answer. -/
inductive Op
  | add (inp : AddInput)
  | delete (task_id : Nat) (confirm : String)

/-- Effect of one action on the state. -/
def stepOp (st : AppState) : Op → AppState
  | .add inp => (add_task inp st).1
  | .delete task_id confirm => delete_task task_id confirm st

/-- Run a sequence of actions. -/
def runOps (st : AppState) : List Op → AppState
  | [] => st
  | op :: ops => runOps (stepOp st op) ops

/-- The ids handed out by the successful `add_task` calls of a run, in
order. -/
def assignedIds (st : AppState) : List Op → List Nat
  | [] => []
  | .add inp :: ops =>
      match (add_task inp st).2 with
      | some t => t.id :: assignedIds (stepOp st (.add inp)) ops
      | none => assignedIds (stepOp st (.add inp)) ops
  | .delete task_id confirm :: ops => assignedIds (stepOp st (.delete task_id confirm)) ops

/-- The ids currently in the store, in collection order. -/
def idsOf (st : AppState) : List Nat := st.tasks.map Task.id

/-- The store invariant `__init__`, `add_task` and `delete_task` maintain:
every stored id is below `current_id`, and ids are pairwise distinct. -/
def StoreInv (st : AppState) : Prop :=
  (∀ t ∈ st.tasks, t.id < st.current_id) ∧ (idsOf st).Nodup

/-! ### Statistics (src/app.py lines 344-371) -/

/-- The numbers `show_stats` reports for a non-empty store.  The source
computes them in IEEE-754 doubles; they are embedded as exact rationals
(at every input appearing in the claims the double results agree). -/
structure StatsReport where
  total : Nat
  done : Nat
  in_progress : Nat
  todo : Nat
  donePct : ℚ
  inProgressPct : ℚ
  todoPct : ℚ
  progress : ℚ
  filled : Nat
  barLength : Nat
  deriving DecidableEq, Repr

/-- `show_stats`, lines 344-371.  An empty store short-circuits at line 347
with a "no data" message and reports nothing (`none`).  Otherwise the
percentages are `count/total*100`, the progress ratio is `done/total`
(guarded by `total > 0`, line 363), and the bar fills
`int(30 * progress)` of its 30 cells. -/
def show_stats (tasks : List Task) : Option StatsReport :=
  if tasks.length = 0 then none
  else
    let total := tasks.length
    let done := (tasks.filter (fun t => t.status == Status.done)).length
    let ip := (tasks.filter (fun t => t.status == Status.inProgress)).length
    let td := (tasks.filter (fun t => t.status == Status.todo)).length
    let progress : ℚ := if 0 < total then (done : ℚ) / (total : ℚ) else 0
    some
      { total := total
        done := done
        in_progress := ip
        todo := td
        donePct := (done : ℚ) / (total : ℚ) * 100
        inProgressPct := (ip : ℚ) / (total : ℚ) * 100
        todoPct := (td : ℚ) / (total : ℚ) * 100
        progress := progress
        filled := (pyInt (30 * progress)).toNat
        barLength := 30 }

/-- Rounding of a nonnegative rational to tenths, as the `:.1f` format does
away from ties: the integer closest to `10 * q`. -/
def roundTenths (q : ℚ) : Int := ⌊q * 10 + 1 / 2⌋

/-! ### Tags (src/app.py lines 373-389) -/

/-- The distinct tags in use: `set()` filled from every task (lines
375-377), listed here as first occurrences in collection order. -/
def all_tags (tasks : List Task) : List String :=
  ((tasks.map Task.tags).flatten).dedup

/-- How many tasks carry `tag` (line 386); a task counts once however often
its list repeats the tag. -/
def tagCount (tasks : List Task) (tag : String) : Nat :=
  (tasks.filter (fun t => t.tags.contains tag)).length

/-- `manage_tags`, lines 373-389: the distinct tags sorted ascending
(`sorted(all_tags)`), each with its task count. -/
def manage_tags (tasks : List Task) : List (String × Nat) :=
  (List.insertionSort (· ≤ ·) (all_tags tasks)).map (fun tag => (tag, tagCount tasks tag))

/-! ### Concrete sample data used by witnesses and counterexamples -/

/-- A sample stored task. -/
def sampleTask : Task :=
  { id := 1, title := "t", description := "d", priority := .medium, status := .todo,
    created_at := "01.01.2024 10:00", due_date := none, tags := [] }

/-- A store of three tasks of which exactly the first is `DONE`. -/
def demo3 : List Task :=
  [{ sampleTask with id := 1, status := .done },
   { sampleTask with id := 2 },
   { sampleTask with id := 3 }]

/-- Two tasks carrying tags with repeated and case-variant entries. -/
def demoTagged : List Task :=
  [{ sampleTask with id := 1, tags := ["Work", "Home"] },
   { sampleTask with id := 2, tags := ["work", "Work", "Work"] }]

/-! ## Persistence lemmas -/

/-- Decoding inverts serialization on every in-memory task: the stored
labels are exactly the enumeration labels. -/
theorem decodeTask_to_dict (t : Task) : decodeTask (Task.to_dict t) = some t := by
  obtain ⟨i, ti, de, p, s, c, dd, tg⟩ := t
  cases p <;> cases s <;> rfl

/-- A decoded task keeps the record's id. -/
theorem decodeTask_id (r : RawTask) (t : Task) (h : decodeTask r = some t) : t.id = r.id := by
  rcases hp : Priority.ofValue? r.priority with _ | p <;>
    rcases hs : Status.ofValue? r.status with _ | s <;>
      simp [decodeTask, hp, hs] at h
  simp [← h]

/-- The record loop appends exactly the run of successfully decoded records
to whatever tasks were already present. -/
theorem loadLoop_tasks (rs : List RawTask) :
    ∀ st : AppState, ((loadLoop rs st).1).tasks = st.tasks ++ decodeRun rs := by
  induction rs with
  | nil => intro st; simp [loadLoop, decodeRun]
  | cons r rs ih =>
      intro st
      rcases h : decodeTask r with _ | t
      · simp [loadLoop, decodeRun, h]
      · simp [loadLoop, decodeRun, h, ih]

/-- Serialized collections decode back in full. -/
theorem decodeRun_map_to_dict (ts : List Task) :
    decodeRun (ts.map Task.to_dict) = ts := by
  induction ts with
  | nil => rfl
  | cons t ts ih => simp [decodeRun, decodeTask_to_dict, ih]

/-- C1, counterexample.  A data file whose first record is fine and whose
second record carries an unrecognized priority label fails to decode, yet
after `load_tasks` the store is NOT empty: the first record survives.  So
"the resulting store state is empty" is false for this input. -/
theorem c1_counterexample :
    (loadLoop
        [{ id := 1, title := "first", description := "", priority := "Низкий",
           status := "К выполнению", created_at := "01.01.2024 10:00", due_date := none,
           tags := [] },
         { id := 2, title := "second", description := "", priority := "Bogus",
           status := "К выполнению", created_at := "01.01.2024 10:05", due_date := none,
           tags := [] }] initState).2 = false ∧
    (load_tasks
        (some (.records
          [{ id := 1, title := "first", description := "", priority := "Низкий",
             status := "К выполнению", created_at := "01.01.2024 10:00", due_date := none,
             tags := [] },
           { id := 2, title := "second", description := "", priority := "Bogus",
             status := "К выполнению", created_at := "01.01.2024 10:05", due_date := none,
             tags := [] }])) initState).tasks ≠ [] := by
  decide

/-- C1 (amended).  `load` failures are caught at the boundary and the
process always starts (`load_tasks` is total); after a failed load the
store holds exactly the records decoded before the first failure — which
is the empty collection when the JSON itself is malformed, when the file
is absent, or when the very first record fails, but not in general. -/
theorem c1_load_boundary :
    (∀ rs : List RawTask,
        (load_tasks (some (.records rs)) initState).tasks = decodeRun rs) ∧
    (∀ r rs, decodeTask r = none →
        (load_tasks (some (.records (r :: rs))) initState).tasks = []) ∧
    (load_tasks (some .malformed) initState).tasks = [] ∧
    (load_tasks none initState).tasks = [] := by
  refine ⟨fun rs => ?_, fun r rs h => ?_, rfl, rfl⟩
  · simp [load_tasks, loadLoop_tasks, initState]
  · simp [load_tasks, loadLoop_tasks, initState, decodeRun, h]

/-- C1 (amended), witness for the record-failure conjunct. -/
theorem c1_witness :
    decodeTask
        { id := 7, title := "t", description := "", priority := "???",
          status := "К выполнению", created_at := "c", due_date := none, tags := [] } = none ∧
    (load_tasks
        (some (.records
          [{ id := 7, title := "t", description := "", priority := "???",
             status := "К выполнению", created_at := "c", due_date := none,
             tags := [] }])) initState).tasks = [] :=
  ⟨by decide, c1_load_boundary.2.1 _ [] (by decide)⟩

/-- C2.  Round-trip: loading the file produced by `save_tasks` into a fresh
store reproduces the collection exactly — same ids, titles, descriptions,
priority and status labels, creation stamps, due dates (including absent
ones) and tags in the same order. -/
theorem c2_round_trip (ts : List Task) :
    (load_tasks (some (save_tasks ts)) initState).tasks = ts := by
  simp [load_tasks, save_tasks, loadLoop_tasks, decodeRun_map_to_dict, initState]

/-! ## add_task lemmas -/

/-- C3.  A title that strips to the empty string makes `add_task` fail with
no effect: the collection is untouched and `current_id` is not advanced. -/
theorem c3_empty_title (inp : AddInput) (st : AppState) (h : pyStrip inp.title = "") :
    add_task inp st = (st, none) := by
  simp [add_task, h]

/-- C3, witness: a whitespace-only title. -/
theorem c3_witness :
    pyStrip "   " = "" ∧
    add_task
        { title := "   ", description := "d", priorityChoice := "2", due_date := "",
          tags_input := "a,b", now := "01.01.2024 10:00" } initState = (initState, none) :=
  ⟨by decide, c3_empty_title _ _ (by decide)⟩

/-- On a fully well-formed record list, the loop's final `current_id` is a
left fold of `max c (id + 1)` over the records. -/
theorem loadLoop_cid (rs : List RawTask) :
    ∀ st : AppState, (∀ r ∈ rs, (decodeTask r).isSome) →
      ((loadLoop rs st).1).current_id =
        rs.foldl (fun c r => max c (r.id + 1)) st.current_id := by
  induction rs with
  | nil => intro st _; rfl
  | cons r rs ih =>
      intro st hwf
      rcases h : decodeTask r with _ | t
      · exact absurd (hwf r (by simp)) (by simp [h])
      · have hid := decodeTask_id r t h
        have hmax : (if st.current_id ≤ t.id then t.id + 1 else st.current_id) =
            max st.current_id (r.id + 1) := by
          rw [hid] at *
          split <;> omega
        simp only [loadLoop, h, List.foldl_cons]
        rw [ih _ (fun x hx => hwf x (by simp [hx])), hmax]

/-- Rewriting the `current_id` fold as `max` of the base and of the
successors of the ids. -/
theorem foldl_max_cid (rs : List RawTask) :
    ∀ c : Nat, rs.foldl (fun c r => max c (r.id + 1)) c =
      max c (rs.foldr (fun r m => max (r.id + 1) m) 0) := by
  induction rs with
  | nil => intro c; simp
  | cons r rs ih => intro c; simp only [List.foldl_cons, List.foldr_cons, ih]; omega

/-- On a non-empty record list the successor fold is the successor of the
maximum id. -/
theorem foldr_max_succ (rs : List RawTask) (h : rs ≠ []) :
    rs.foldr (fun r m => max (r.id + 1) m) 0 =
      (rs.map RawTask.id).foldr max 0 + 1 := by
  induction rs with
  | nil => exact absurd rfl h
  | cons r rs ih =>
      cases rs with
      | nil => simp only [List.foldr_cons, List.foldr_nil, List.map_cons, List.map_nil]; omega
      | cons r2 rs2 =>
          have := ih (by simp)
          simp only [List.foldr_cons, List.map_cons] at this ⊢
          omega

/-- C6.  After loading all records of a well-formed file, `current_id` is
`1 + max id` (or `1` on an empty file), and the first subsequent successful
`add_task` hands out exactly that id. -/
theorem c6_next_id (rs : List RawTask) (hwf : ∀ r ∈ rs, (decodeTask r).isSome)
    (inp : AddInput) (ht : pyStrip inp.title ≠ "") :
    (rs = [] → (load_tasks (some (.records rs)) initState).current_id = 1) ∧
    (rs ≠ [] → (load_tasks (some (.records rs)) initState).current_id =
        1 + (rs.map RawTask.id).foldr max 0) ∧
    ∃ tk, (add_task inp (load_tasks (some (.records rs)) initState)).2 = some tk ∧
      tk.id = (load_tasks (some (.records rs)) initState).current_id := by
  refine ⟨fun he => ?_, fun hne => ?_, ?_⟩
  · subst he; rfl
  · show ((loadLoop rs initState).1).current_id = _
    rw [loadLoop_cid rs initState hwf, foldl_max_cid, foldr_max_succ rs hne]
    simp only [initState]
    omega
  · simp only [add_task, if_neg ht]
    exact ⟨_, rfl, rfl⟩

/-- C6, witness: one record with id 5, then an add, which receives id 6. -/
theorem c6_witness :
    (∀ r ∈ [({ id := 5, title := "t", description := "", priority := "Высокий",
               status := "Выполнено", created_at := "c", due_date := some "02.02.2024",
               tags := ["a"] } : RawTask)], (decodeTask r).isSome) ∧
    pyStrip "new" ≠ "" ∧
    (([({ id := 5, title := "t", description := "", priority := "Высокий",
          status := "Выполнено", created_at := "c", due_date := some "02.02.2024",
          tags := ["a"] } : RawTask)] : List RawTask) ≠ [] →
      (load_tasks
          (some (.records
            [{ id := 5, title := "t", description := "", priority := "Высокий",
               status := "Выполнено", created_at := "c", due_date := some "02.02.2024",
               tags := ["a"] }])) initState).current_id =
        1 + (([({ id := 5, title := "t", description := "", priority := "Высокий",
                  status := "Выполнено", created_at := "c", due_date := some "02.02.2024",
                  tags := ["a"] } : RawTask)]).map RawTask.id).foldr max 0) ∧
    ∃ tk,
      (add_task
          { title := "new", description := "", priorityChoice := "", due_date := "",
            tags_input := "", now := "n" }
          (load_tasks
            (some (.records
              [{ id := 5, title := "t", description := "", priority := "Высокий",
                 status := "Выполнено", created_at := "c", due_date := some "02.02.2024",
                 tags := ["a"] }])) initState)).2 = some tk ∧
      tk.id =
        (load_tasks
          (some (.records
            [{ id := 5, title := "t", description := "", priority := "Высокий",
               status := "Выполнено", created_at := "c", due_date := some "02.02.2024",
               tags := ["a"] }])) initState).current_id :=
  have h :=
    c6_next_id
      [{ id := 5, title := "t", description := "", priority := "Высокий",
         status := "Выполнено", created_at := "c", due_date := some "02.02.2024",
         tags := ["a"] }] (by decide)
      { title := "new", description := "", priorityChoice := "", due_date := "",
        tags_input := "", now := "n" } (by decide)
  ⟨by decide, by decide, h.2.1, h.2.2⟩

/-! ## Id-allocation lemmas (C4) -/

/-- Dropping the first match keeps a sublist. -/
theorem eraseFirstP_sublist (p : Task → Bool) :
    ∀ l : List Task, (eraseFirstP p l).Sublist l := by
  intro l
  induction l with
  | nil => exact List.Sublist.refl _
  | cons t ts ih =>
      unfold eraseFirstP
      split
      · exact (List.Sublist.refl ts).cons t
      · exact ih.cons₂ t

/-- `delete_task` never touches `current_id`. -/
theorem delete_task_cid (task_id : Nat) (confirm : String) (st : AppState) :
    (delete_task task_id confirm st).current_id = st.current_id := by
  rcases h : find_task task_id st with _ | t
  · simp [delete_task, h]
  · simp only [delete_task, h]
    split <;> rfl

/-- `delete_task` only ever drops tasks: the collection that remains is a
sublist of what was there. -/
theorem delete_task_sublist (task_id : Nat) (confirm : String) (st : AppState) :
    (delete_task task_id confirm st).tasks.Sublist st.tasks := by
  rcases h : find_task task_id st with _ | t
  · simp [delete_task, h]
  · simp only [delete_task, h]
    split
    · exact eraseFirstP_sublist _ st.tasks
    · exact List.Sublist.refl _

/-- One action never decreases `current_id`. -/
theorem stepOp_cid_le (st : AppState) (op : Op) :
    st.current_id ≤ (stepOp st op).current_id := by
  cases op with
  | add inp =>
      by_cases h : pyStrip inp.title = "" <;> simp [stepOp, add_task, h]
  | delete task_id confirm => simp [stepOp, delete_task_cid]

/-- A run never decreases `current_id`. -/
theorem runOps_cid_le (ops : List Op) :
    ∀ st : AppState, st.current_id ≤ (runOps st ops).current_id := by
  induction ops with
  | nil => intro st; exact Nat.le_refl _
  | cons op ops ih =>
      intro st
      exact Nat.le_trans (stepOp_cid_le st op) (ih (stepOp st op))

/-- Runs compose by concatenation. -/
theorem runOps_append (as : List Op) :
    ∀ (bs : List Op) (st : AppState), runOps st (as ++ bs) = runOps (runOps st as) bs := by
  induction as with
  | nil => intro bs st; rfl
  | cons a as ih => intro bs st; simp only [List.cons_append, runOps]; exact ih bs _

/-- The fresh store satisfies the invariant. -/
theorem inv_initState : StoreInv initState := by
  constructor <;> simp [initState, idsOf]

/-- One action preserves the store invariant. -/
theorem stepOp_inv (st : AppState) (op : Op) (h : StoreInv st) : StoreInv (stepOp st op) := by
  obtain ⟨hlt, hnd⟩ := h
  cases op with
  | add inp =>
      by_cases ht : pyStrip inp.title = ""
      · simpa [stepOp, add_task, ht] using ⟨hlt, hnd⟩
      · simp only [stepOp, add_task, if_neg ht]
        constructor
        · intro t htm
          rcases List.mem_append.mp htm with hm | hm
          · exact Nat.lt_succ_of_lt (hlt t hm)
          · simp only [List.mem_singleton] at hm
            simp [hm]
        · simp only [idsOf, List.map_append, List.map_cons, List.map_nil]
          rw [List.nodup_append]
          refine ⟨hnd, List.nodup_singleton _, ?_⟩
          intro a ha hb
          simp only [List.mem_singleton] at hb
          rcases List.mem_map.mp ha with ⟨t, htm, rfl⟩
          exact absurd hb (Nat.ne_of_lt (hlt t htm))
  | delete task_id confirm =>
      constructor
      · intro t htm
        rw [show (stepOp st (.delete task_id confirm)).current_id = st.current_id from
          delete_task_cid task_id confirm st]
        exact hlt t ((delete_task_sublist task_id confirm st).subset htm)
      · exact List.Nodup.sublist
          ((delete_task_sublist task_id confirm st).map Task.id) hnd

/-- A run preserves the store invariant. -/
theorem runOps_inv (ops : List Op) :
    ∀ st : AppState, StoreInv st → StoreInv (runOps st ops) := by
  induction ops with
  | nil => intro st h; exact h
  | cons op ops ih => intro st h; exact ih _ (stepOp_inv st op h)

/-- An id strictly below the counter and absent from the store stays absent
under one action. -/
theorem stepOp_notin (st : AppState) (op : Op) (d : Nat) (hcur : d < st.current_id)
    (hd : d ∉ idsOf st) : d ∉ idsOf (stepOp st op) := by
  cases op with
  | add inp =>
      by_cases ht : pyStrip inp.title = ""
      · simpa [stepOp, add_task, ht] using hd
      · simp only [stepOp, add_task, if_neg ht, idsOf, List.map_append, List.map_cons,
          List.map_nil]
        intro hm
        rcases List.mem_append.mp hm with hm | hm
        · exact hd hm
        · simp only [List.mem_singleton] at hm
          omega
  | delete task_id confirm =>
      intro hm
      exact hd (((delete_task_sublist task_id confirm st).map Task.id).subset hm)

/-- An id strictly below the counter and absent from the store stays absent
under any run. -/
theorem runOps_notin (ops : List Op) :
    ∀ (st : AppState) (d : Nat), d < st.current_id → d ∉ idsOf st →
      d ∉ idsOf (runOps st ops) := by
  induction ops with
  | nil => intro st d _ hd; exact hd
  | cons op ops ih =>
      intro st d hcur hd
      exact ih _ d (Nat.lt_of_lt_of_le hcur (stepOp_cid_le st op)) (stepOp_notin st op d hcur hd)

/-- A store holding no task with id `d` makes `find_task d` fail. -/
theorem find_task_eq_none (st : AppState) (d : Nat) (hd : d ∉ idsOf st) :
    find_task d st = none := by
  rw [find_task, List.find?_eq_none]
  intro t htm
  simp only [beq_iff_eq]
  intro hid
  exact hd (List.mem_map.mpr ⟨t, htm, hid⟩)

/-- Erasing by id really removes the id when ids are distinct. -/
theorem eraseFirstP_id_notin (d : Nat) :
    ∀ l : List Task, (l.map Task.id).Nodup →
      d ∉ (eraseFirstP (fun t => t.id == d) l).map Task.id := by
  intro l
  induction l with
  | nil => intro _; simp [eraseFirstP]
  | cons t ts ih =>
      intro hnd
      simp only [List.map_cons, List.nodup_cons] at hnd
      unfold eraseFirstP
      split
      · rename_i hb
        simp only [beq_iff_eq] at hb
        rw [← hb]
        exact hnd.1
      · rename_i hb
        simp only [beq_iff_eq] at hb
        simp only [List.map_cons, List.mem_cons]
        rintro (h | h)
        · exact hb h.symm
        · exact ih hnd.2 h

/-- A confirmed delete of a present id removes it and keeps the counter. -/
theorem delete_removes (st : AppState) (d : Nat) (c : String) (hinv : StoreInv st)
    (hd : d ∈ idsOf st) (hc : pyLower c = "y") :
    d ∉ idsOf (delete_task d c st) ∧ (delete_task d c st).current_id = st.current_id := by
  rcases List.mem_map.mp hd with ⟨t, htm, hid⟩
  have hfind : (find_task d st).isSome := by
    rw [find_task, List.find?_isSome]
    exact ⟨t, htm, by simp [hid]⟩
  refine ⟨?_, delete_task_cid d c st⟩
  unfold delete_task
  rcases hf : find_task d st with _ | t'
  · rw [hf] at hfind; simp at hfind
  · simp only [if_pos hc]
    exact eraseFirstP_id_notin d st.tasks hinv.2

/-- The ids a run hands out are bounded below by the starting counter and
pairwise increasing. -/
theorem assignedIds_lb_pairwise (ops : List Op) :
    ∀ st : AppState,
      (∀ x ∈ assignedIds st ops, st.current_id ≤ x) ∧
      List.Pairwise (· < ·) (assignedIds st ops) := by
  induction ops with
  | nil => intro st; simp [assignedIds]
  | cons op ops ih =>
      intro st
      cases op with
      | add inp =>
          by_cases ht : pyStrip inp.title = ""
          · have hnone : (add_task inp st).2 = none := by simp [add_task, ht]
            have hst : stepOp st (.add inp) = st := by simp [stepOp, add_task, ht]
            simp only [assignedIds, hnone, hst]
            exact ih st
          · have hsome : (add_task inp st).2 =
                some { id := st.current_id, title := pyStrip inp.title,
                       description := pyStrip inp.description,
                       priority := prioritySel inp.priorityChoice, status := Status.todo,
                       created_at := inp.now,
                       due_date := if pyStrip inp.due_date = "" then none
                         else some (pyStrip inp.due_date),
                       tags := pyTagSplit inp.tags_input } := by
              simp [add_task, if_neg ht]
            have hcid : (stepOp st (.add inp)).current_id = st.current_id + 1 := by
              simp [stepOp, add_task, if_neg ht]
            obtain ⟨ihlb, ihpw⟩ := ih (stepOp st (.add inp))
            rw [hcid] at ihlb
            simp only [assignedIds, hsome]
            constructor
            · intro x hx
              rcases List.mem_cons.mp hx with rfl | hx
              · exact Nat.le_refl _
              · exact Nat.le_of_succ_le (ihlb x hx)
            · rw [List.pairwise_cons]
              exact ⟨fun x hx => Nat.lt_of_succ_le (ihlb x hx), ihpw⟩
      | delete task_id confirm =>
          obtain ⟨ihlb, ihpw⟩ := ih (stepOp st (.delete task_id confirm))
          simp only [assignedIds]
          refine ⟨fun x hx => Nat.le_trans (stepOp_cid_le st _) (ihlb x hx), ihpw⟩

/-- C4.  Over every action sequence from the fresh store, the ids the adds
hand out are pairwise increasing (hence strictly increasing in order of
assignment) and contain no duplicate; and once a present id is removed by a
confirmed delete, looking it up after any further actions fails — the id is
never reassigned. -/
theorem c4_id_allocation (ops : List Op) :
    List.Pairwise (· < ·) (assignedIds initState ops) ∧
    (assignedIds initState ops).Nodup ∧
    ∀ (pre : List Op) (d : Nat) (c : String) (post : List Op),
      d ∈ idsOf (runOps initState pre) → pyLower c = "y" →
      find_task d (runOps initState (pre ++ Op.delete d c :: post)) = none := by
  obtain ⟨-, hpw⟩ := assignedIds_lb_pairwise ops initState
  refine ⟨hpw, hpw.imp fun h => Nat.ne_of_lt h, ?_⟩
  intro pre d c post hd hc
  have hinv1 : StoreInv (runOps initState pre) := runOps_inv pre initState inv_initState
  have hdcur : d < (runOps initState pre).current_id := by
    rcases List.mem_map.mp hd with ⟨t, htm, hid⟩
    rw [← hid]
    exact hinv1.1 t htm
  obtain ⟨hgone, hcid⟩ := delete_removes (runOps initState pre) d c hinv1 hd hc
  rw [runOps_append]
  show find_task d (runOps (runOps (runOps initState pre) [Op.delete d c]) post) = none
  have hstep : runOps (runOps initState pre) [Op.delete d c] =
      delete_task d c (runOps initState pre) := rfl
  rw [hstep]
  refine find_task_eq_none _ d (runOps_notin post _ d ?_ hgone)
  rw [hcid]
  exact hdcur

/-- C4, witness: add a task, delete it confirmed, add another; the deleted
id 1 stays unfindable and the assigned ids were [1, 2]. -/
theorem c4_witness :
    (1 ∈ idsOf (runOps initState
        [Op.add { title := "a", description := "", priorityChoice := "", due_date := "",
                  tags_input := "", now := "n" }])) ∧
    pyLower "y" = "y" ∧
    find_task 1 (runOps initState
        ([Op.add { title := "a", description := "", priorityChoice := "", due_date := "",
                   tags_input := "", now := "n" }] ++ Op.delete 1 "y" ::
          [Op.add { title := "b", description := "", priorityChoice := "", due_date := "",
                    tags_input := "", now := "n" }])) = none :=
  ⟨by decide, by decide,
    (c4_id_allocation
        ([Op.add { title := "a", description := "", priorityChoice := "", due_date := "",
                   tags_input := "", now := "n" }] ++ Op.delete 1 "y" ::
          [Op.add { title := "b", description := "", priorityChoice := "", due_date := "",
                    tags_input := "", now := "n" }])).2.2
      [Op.add { title := "a", description := "", priorityChoice := "", due_date := "",
                tags_input := "", now := "n" }] 1 "y"
      [Op.add { title := "b", description := "", priorityChoice := "", due_date := "",
                tags_input := "", now := "n" }] (by decide) (by decide)⟩

/-! ## edit_task lemmas (C7, C10) -/

/-- `modifyFirst` rewrites exactly the first match and nothing else. -/
theorem modifyFirst_append (p : Task → Bool) (f : Task → Task) :
    ∀ (l1 : List Task) (t : Task) (l2 : List Task), (∀ u ∈ l1, p u = false) → p t = true →
      modifyFirst p f (l1 ++ t :: l2) = l1 ++ f t :: l2 := by
  intro l1
  induction l1 with
  | nil =>
      intro t l2 _ ht
      simp [modifyFirst, ht]
  | cons u l1 ih =>
      intro t l2 h1 ht
      have hu : p u = false := h1 u (by simp)
      simp only [List.cons_append, modifyFirst, hu, Bool.false_eq_true, if_false,
        List.cons.injEq, true_and]
      exact ih t l2 (fun v hv => h1 v (by simp [hv])) ht

/-- What one `applyEdit` does to a task, field by field. -/
theorem applyEdit_spec (tIn dIn sIn : String) (t : Task) :
    applyEdit tIn dIn sIn t =
      { id := t.id
        title := if pyStrip tIn = "" then t.title else pyStrip tIn
        description := if pyStrip dIn = "" then t.description else pyStrip dIn
        priority := t.priority
        status := (statusSel sIn).getD t.status
        created_at := t.created_at
        due_date := t.due_date
        tags := t.tags } := by
  unfold applyEdit applyStatus applyDesc applyTitle
  rcases h : statusSel sIn with _ | s <;>
    by_cases h1 : pyStrip tIn = "" <;> by_cases h2 : pyStrip dIn = "" <;> simp [h, h1, h2]

/-- An empty status answer skips the status update. -/
theorem statusSel_empty (sIn : String) (h : pyStrip sIn = "") : statusSel sIn = none := by
  simp [statusSel, h]

/-- Editing a present id (ids distinct) rewrites that task in place and
keeps everything around it, and keeps the id counter. -/
theorem edit_split (st : AppState) (tid : Nat) (tIn dIn sIn : String)
    (hnd : (idsOf st).Nodup) (t0 : Task) (hmem : t0 ∈ st.tasks) (hid : t0.id = tid) :
    ∃ l1 l2,
      st.tasks = l1 ++ t0 :: l2 ∧
      (edit_task tid tIn dIn sIn st).tasks = l1 ++ applyEdit tIn dIn sIn t0 :: l2 ∧
      (edit_task tid tIn dIn sIn st).current_id = st.current_id := by
  obtain ⟨l1, l2, hsplit⟩ := List.append_of_mem hmem
  have hnd' : (l1.map Task.id ++ t0.id :: l2.map Task.id).Nodup := by
    have := hnd
    rw [idsOf, hsplit] at this
    simpa using this
  have hnotin : t0.id ∉ l1.map Task.id := by
    rcases List.nodup_append.mp hnd' with ⟨-, -, hdisj⟩
    intro hin
    exact hdisj hin (by simp)
  have hfalse : ∀ u ∈ l1, (u.id == tid) = false := by
    intro u hu
    rw [beq_eq_false_iff_ne]
    intro he
    exact hnotin (List.mem_map.mpr ⟨u, hu, by rw [he, hid]⟩)
  have hfsome : (find_task tid st).isSome := by
    rw [find_task, List.find?_isSome]
    exact ⟨t0, hmem, by simp [hid]⟩
  rcases hf : find_task tid st with _ | tf
  · rw [hf] at hfsome
    simp at hfsome
  · refine ⟨l1, l2, hsplit, ?_, ?_⟩
    · simp only [edit_task, hf]
      rw [hsplit]
      exact modifyFirst_append _ _ l1 t0 l2 hfalse (by simp [hid])
    · simp only [edit_task, hf]

/-- C7.  Editing a present id overwrites exactly the provided non-empty
fields with the (stripped) new values — a valid status selection is
applied, an empty one kept — never touches `id`, `created_at`, `priority`,
`due_date` or `tags`, and leaves every other task and the id counter
unchanged. -/
theorem c7_edit_fields (st : AppState) (tid : Nat) (tIn dIn sIn : String)
    (hnd : (idsOf st).Nodup) (t0 : Task) (hmem : t0 ∈ st.tasks) (hid : t0.id = tid) :
    ∃ l1 l2,
      st.tasks = l1 ++ t0 :: l2 ∧
      (edit_task tid tIn dIn sIn st).tasks = l1 ++ applyEdit tIn dIn sIn t0 :: l2 ∧
      (edit_task tid tIn dIn sIn st).current_id = st.current_id ∧
      (applyEdit tIn dIn sIn t0).id = t0.id ∧
      (applyEdit tIn dIn sIn t0).created_at = t0.created_at ∧
      (applyEdit tIn dIn sIn t0).priority = t0.priority ∧
      (applyEdit tIn dIn sIn t0).due_date = t0.due_date ∧
      (applyEdit tIn dIn sIn t0).tags = t0.tags ∧
      (applyEdit tIn dIn sIn t0).title =
        (if pyStrip tIn = "" then t0.title else pyStrip tIn) ∧
      (applyEdit tIn dIn sIn t0).description =
        (if pyStrip dIn = "" then t0.description else pyStrip dIn) ∧
      (pyStrip sIn = "" → (applyEdit tIn dIn sIn t0).status = t0.status) ∧
      (∀ s, statusSel sIn = some s → (applyEdit tIn dIn sIn t0).status = s) := by
  obtain ⟨l1, l2, h1, h2, h3⟩ := edit_split st tid tIn dIn sIn hnd t0 hmem hid
  refine ⟨l1, l2, h1, h2, h3, ?_, ?_, ?_, ?_, ?_, ?_, ?_, ?_, ?_⟩ <;>
    rw [applyEdit_spec]
  · intro hs
    simp [statusSel_empty sIn hs]
  · intro s hs
    simp [hs]

/-- C7, witness: store `[sampleTask]` (id 1, title "t", description "d",
status `TODO`); edit id 1 with title answer `" New "`, empty description
answer, status answer `"3"`. -/
theorem c7_witness :
    ((idsOf { tasks := [sampleTask], current_id := 2 }).Nodup ∧
      sampleTask ∈ ({ tasks := [sampleTask], current_id := 2 } : AppState).tasks ∧
      sampleTask.id = 1) ∧
    ∃ l1 l2,
      ({ tasks := [sampleTask], current_id := 2 } : AppState).tasks =
        l1 ++ sampleTask :: l2 ∧
      (edit_task 1 " New " "" "3" { tasks := [sampleTask], current_id := 2 }).tasks =
        l1 ++ applyEdit " New " "" "3" sampleTask :: l2 ∧
      (edit_task 1 " New " "" "3" { tasks := [sampleTask], current_id := 2 }).current_id =
        ({ tasks := [sampleTask], current_id := 2 } : AppState).current_id ∧
      (applyEdit " New " "" "3" sampleTask).id = sampleTask.id ∧
      (applyEdit " New " "" "3" sampleTask).created_at = sampleTask.created_at ∧
      (applyEdit " New " "" "3" sampleTask).priority = sampleTask.priority ∧
      (applyEdit " New " "" "3" sampleTask).due_date = sampleTask.due_date ∧
      (applyEdit " New " "" "3" sampleTask).tags = sampleTask.tags ∧
      (applyEdit " New " "" "3" sampleTask).title =
        (if pyStrip " New " = "" then sampleTask.title else pyStrip " New ") ∧
      (applyEdit " New " "" "3" sampleTask).description =
        (if pyStrip "" = "" then sampleTask.description else pyStrip "") ∧
      (pyStrip "3" = "" → (applyEdit " New " "" "3" sampleTask).status = sampleTask.status) ∧
      (∀ s, statusSel "3" = some s → (applyEdit " New " "" "3" sampleTask).status = s) :=
  ⟨⟨by decide, by decide, by decide⟩,
    c7_edit_fields { tasks := [sampleTask], current_id := 2 } 1 " New " "" "3"
      (by decide) sampleTask (by decide) (by decide)⟩

/-- A numeric status answer outside −3..4 indexes outside `list(Status)`
even with Python's negative indexing, so lookup raises `IndexError`. -/
theorem pyIndex_statusList_none (n : Int) (h : 4 < n ∨ n < -3) :
    pyIndex statusList (n - 1) = none := by
  unfold pyIndex statusList
  rcases h with h | h
  · rw [if_pos (by omega : (0 : Int) ≤ n - 1)]
    apply List.getElem?_eq_none
    simp only [List.length_cons, List.length_nil]
    omega
  · rw [if_neg (by omega), if_neg (by simp only [List.length_cons, List.length_nil]; omega)]

/-- The status answers `edit_task` silently ignores: non-numeric text, or a
number whose decremented value falls outside Python's index range. -/
theorem statusSel_eq_none (sIn : String)
    (hinv : pyToInt? (pyStrip sIn) = none ∨
      ∃ n, pyToInt? (pyStrip sIn) = some n ∧ (4 < n ∨ n < -3)) :
    statusSel sIn = none := by
  unfold statusSel
  split
  · rfl
  · rcases hinv with h | ⟨n, hn, hr⟩
    · rw [h]
    · rw [hn]
      exact pyIndex_statusList_none n hr

/-- C10, counterexample.  The status answer `"0"` is outside the offered
range 1-4, yet it is NOT ignored: Python evaluates `list(Status)[0 - 1] =
list(Status)[-1]`, so the task's status flips from `TODO` to `CANCELLED`. -/
theorem c10_counterexample :
    (pyStrip "0" ≠ "" ∧ pyToInt? "0" = some 0) ∧
    sampleTask.status = Status.todo ∧
    (edit_task 1 "" "" "0" { tasks := [sampleTask], current_id := 2 }).tasks =
      [{ sampleTask with status := Status.cancelled }] ∧
    Status.cancelled ≠ Status.todo := by
  refine ⟨⟨by decide, by decide⟩, by decide, by decide, by decide⟩

/-- C10 (amended).  During an edit of a present id, a status answer that is
non-numeric, or numeric with value above 4 or below −3, is silently
ignored: the status keeps its current value, no error is signalled (the
state is still updated), and the title/description edits of the same call
are retained.  (Numeric answers in −3..0 are NOT ignored: they select a
status through Python's negative indexing, as the counterexample shows.) -/
theorem c10_invalid_status_ignored (st : AppState) (tid : Nat) (tIn dIn sIn : String)
    (hnd : (idsOf st).Nodup) (t0 : Task) (hmem : t0 ∈ st.tasks) (hid : t0.id = tid)
    (hinv : pyToInt? (pyStrip sIn) = none ∨
      ∃ n, pyToInt? (pyStrip sIn) = some n ∧ (4 < n ∨ n < -3)) :
    ∃ l1 l2,
      st.tasks = l1 ++ t0 :: l2 ∧
      (edit_task tid tIn dIn sIn st).tasks = l1 ++ applyEdit tIn dIn sIn t0 :: l2 ∧
      (applyEdit tIn dIn sIn t0).status = t0.status ∧
      (applyEdit tIn dIn sIn t0).title =
        (if pyStrip tIn = "" then t0.title else pyStrip tIn) ∧
      (applyEdit tIn dIn sIn t0).description =
        (if pyStrip dIn = "" then t0.description else pyStrip dIn) := by
  obtain ⟨l1, l2, h1, h2, -⟩ := edit_split st tid tIn dIn sIn hnd t0 hmem hid
  refine ⟨l1, l2, h1, h2, ?_, ?_, ?_⟩ <;> rw [applyEdit_spec]
  simp [statusSel_eq_none sIn hinv]

/-- C10 (amended), witness: non-numeric status answer `"x"` with a
simultaneous description edit. -/
theorem c10_witness :
    ((idsOf { tasks := [sampleTask], current_id := 2 }).Nodup ∧
      sampleTask ∈ ({ tasks := [sampleTask], current_id := 2 } : AppState).tasks ∧
      sampleTask.id = 1 ∧ pyToInt? (pyStrip "x") = none) ∧
    ∃ l1 l2,
      ({ tasks := [sampleTask], current_id := 2 } : AppState).tasks =
        l1 ++ sampleTask :: l2 ∧
      (edit_task 1 "" " upd " "x" { tasks := [sampleTask], current_id := 2 }).tasks =
        l1 ++ applyEdit "" " upd " "x" sampleTask :: l2 ∧
      (applyEdit "" " upd " "x" sampleTask).status = sampleTask.status ∧
      (applyEdit "" " upd " "x" sampleTask).title =
        (if pyStrip "" = "" then sampleTask.title else pyStrip "") ∧
      (applyEdit "" " upd " "x" sampleTask).description =
        (if pyStrip " upd " = "" then sampleTask.description else pyStrip " upd ") :=
  ⟨⟨by decide, by decide, by decide, by decide⟩,
    c10_invalid_status_ignored { tasks := [sampleTask], current_id := 2 } 1 "" " upd " "x"
      (by decide) sampleTask (by decide) (by decide) (Or.inl (by decide))⟩

/-! ## Statistics lemmas (C5, C9) -/

/-- C5, counterexample.  On an empty store `show_stats` short-circuits at
the `total == 0` guard with a "no data" message and reports nothing, so it
does not return a record with total 0 and zero percentages. -/
theorem c5_counterexample :
    show_stats [] = none ∧
    ¬ ∃ r : StatsReport, show_stats [] = some r ∧ r.total = 0 ∧ r.donePct = 0 ∧
      r.inProgressPct = 0 ∧ r.todoPct = 0 ∧ r.progress = 0 := by
  refine ⟨rfl, ?_⟩
  rintro ⟨r, hr, -⟩
  exact Option.noConfusion ((show show_stats [] = none from rfl) ▸ hr)

/-- C5 (amended).  `show_stats` on an empty store reports no statistics at
all — the `total == 0` guard short-circuits before any percentage, progress
or bar computation, which is how the division by zero is avoided; a report
is produced exactly for non-empty stores. -/
theorem c5_empty_store :
    show_stats [] = none ∧ ∀ tasks : List Task, show_stats tasks = none ↔ tasks = [] := by
  refine ⟨rfl, fun tasks => ?_⟩
  cases tasks <;> simp [show_stats]

/-- C9, counterexample.  On three tasks with exactly one `DONE`, the
progress ratio is 1/3 and the bar fills `int(30 * (1/3)) = 10` cells, not
9: the claimed value floor(30 × 0.333) = 9 truncates the ratio to three
decimals first, which neither the code nor exact arithmetic does. -/
theorem c9_counterexample :
    ¬ ∃ r : StatsReport, show_stats demo3 = some r ∧ r.filled = 9 := by
  rintro ⟨r, hr, hf⟩
  have hlen : demo3.length = 3 := by decide
  have hdone : (demo3.filter (fun t => t.status == Status.done)).length = 1 := by decide
  have hip : (demo3.filter (fun t => t.status == Status.inProgress)).length = 0 := by decide
  have htd : (demo3.filter (fun t => t.status == Status.todo)).length = 2 := by decide
  rw [show_stats, hlen] at hr
  simp only [hdone, hip, htd, hlen] at hr
  norm_num at hr
  rw [← hr] at hf
  norm_num [pyInt] at hf
  omega

/-- C9 (amended).  On three tasks with exactly one `DONE`, `show_stats`
reports: done count 1 of total 3; a done percentage of 100/3 ≈ 33.33, which
the one-decimal format renders as 33.3 (the nearest tenth is 333/10); a
progress ratio of exactly 1/3 ≈ 0.333; and a bar of 30 cells of which
`int(30 * progress)` = 10 are filled — not 9. -/
theorem c9_stats_values :
    ∃ r : StatsReport, show_stats demo3 = some r ∧
      r.total = 3 ∧ r.done = 1 ∧
      r.donePct = 100 / 3 ∧ roundTenths r.donePct = 333 ∧
      r.progress = 1 / 3 ∧
      r.filled = (pyInt (30 * r.progress)).toNat ∧ r.filled = 10 ∧ r.barLength = 30 := by
  have hlen : demo3.length = 3 := by decide
  have hdone : (demo3.filter (fun t => t.status == Status.done)).length = 1 := by decide
  have hip : (demo3.filter (fun t => t.status == Status.inProgress)).length = 0 := by decide
  have htd : (demo3.filter (fun t => t.status == Status.todo)).length = 2 := by decide
  refine ⟨{ total := 3, done := 1, in_progress := 0, todo := 2, donePct := 100 / 3,
            inProgressPct := 0, todoPct := 200 / 3, progress := 1 / 3, filled := 10,
            barLength := 30 }, ?_, rfl, rfl, rfl, ?_, rfl, ?_, rfl, rfl⟩
  · rw [show_stats, hlen]
    simp only [hdone, hip, htd, hlen]
    norm_num [pyInt]
    rfl
  · rw [roundTenths, show ((100 : ℚ) / 3 * 10 + 1 / 2 : ℚ) = 2003 / 6 by norm_num,
      Int.floor_eq_iff]
    constructor <;> norm_num
  · show (10 : Nat) = (pyInt (30 * ((1 : ℚ) / 3))).toNat
    norm_num [pyInt]
    rfl

/-! ## Tag lemmas (C8) -/

/-- The tag texts `manage_tags` lists are exactly the sorted distinct tags. -/
theorem manage_tags_fst (tasks : List Task) :
    (manage_tags tasks).map Prod.fst = List.insertionSort (· ≤ ·) (all_tags tasks) := by
  simp [manage_tags, List.map_map, Function.comp_def]

/-- A string occurs among the distinct tags iff some task carries it. -/
theorem mem_all_tags (tasks : List Task) (s : String) :
    s ∈ all_tags tasks ↔ ∃ t ∈ tasks, s ∈ t.tags := by
  rw [all_tags, List.mem_dedup, List.mem_flatten]
  constructor
  · rintro ⟨l, hl, hs⟩
    rcases List.mem_map.mp hl with ⟨t, ht, rfl⟩
    exact ⟨t, ht, hs⟩
  · rintro ⟨t, ht, hs⟩
    exact ⟨t.tags, List.mem_map.mpr ⟨t, ht, rfl⟩, hs⟩

/-- C8.  `manage_tags` lists every tag in use exactly with the number of
tasks whose tag list contains that exact string (a task repeating a tag
still counts once), and the listing is strictly ascending in the
lexicographic string order. -/
theorem c8_distinct_tags (tasks : List Task) :
    (∀ s : String, (∃ p ∈ manage_tags tasks, p.1 = s) ↔ ∃ t ∈ tasks, s ∈ t.tags) ∧
    (∀ p ∈ manage_tags tasks, p.2 = tasks.countP (fun t => t.tags.contains p.1)) ∧
    List.Pairwise (fun p q : String × Nat => p.1 < q.1) (manage_tags tasks) := by
  refine ⟨fun s => ?_, fun p hp => ?_, ?_⟩
  · rw [show (∃ p ∈ manage_tags tasks, p.1 = s) ↔ s ∈ (manage_tags tasks).map Prod.fst by
      simp [List.mem_map]]
    rw [manage_tags_fst, List.mem_insertionSort]
    exact mem_all_tags tasks s
  · rcases List.mem_map.mp hp with ⟨tag, -, rfl⟩
    simp only [tagCount, List.countP_eq_length_filter]
  · have hsorted : List.Pairwise (· ≤ ·)
        (List.insertionSort (· ≤ ·) (all_tags tasks)) :=
      List.sorted_insertionSort (· ≤ ·) (all_tags tasks)
    have hnd : (List.insertionSort (· ≤ ·) (all_tags tasks)).Nodup :=
      (List.perm_insertionSort (· ≤ ·) (all_tags tasks)).nodup_iff.mpr
        (List.nodup_dedup _)
    have hlt : List.Pairwise (· < ·) (List.insertionSort (· ≤ ·) (all_tags tasks)) :=
      (hsorted.and hnd).imp fun h => lt_of_le_of_ne h.1 h.2
    rw [manage_tags, List.pairwise_map]
    exact hlt

/-- C8, witness on `demoTagged` (tags `["Work","Home"]` and
`["work","Work","Work"]`): the tag "Work" is listed because a task carries
it, and its count — the number of tasks containing the exact string — is 2
even though one task repeats it. -/
theorem c8_witness :
    (∃ t ∈ demoTagged, ("Work" : String) ∈ t.tags) ∧
    (∃ p ∈ manage_tags demoTagged, p.1 = "Work") ∧
    demoTagged.countP (fun t => t.tags.contains "Work") = 2 ∧
    tagCount demoTagged "Work" = 2 :=
  ⟨⟨{ sampleTask with id := 1, tags := ["Work", "Home"] }, by decide, by decide⟩,
    ((c8_distinct_tags demoTagged).1 "Work").mpr
      ⟨{ sampleTask with id := 1, tags := ["Work", "Home"] }, by decide, by decide⟩,
    by decide, by decide⟩

end TodoApp
